import Mathlib

/-!
Shallow embedding of the MBFilter control program (`src/main.rs`).

The program has four relevant parts:
  * the `start` subcommand's acquisition loop (main.rs lines 129-155),
  * the `configure` subcommand (lines 116-126),
  * the websocket configuration handler `ws_handler` (lines 194-209),
  * the exclusive-access guard, an `Arc<Mutex<MBFilter>>` used through
    `try_lock` (lines 158-171 and 199-200).

External collaborators (the `MBFilter` driver, the sink `BufWriter`, the
standard mutex) are modelled by their contracts, as oracles:
  * a driver `read(&mut buffer)` call either fails or returns `bytes_read`
    with `bytes_read <= buffer.len()`; an oracle entry `Res.ok k` yields
    `min k bufSize` bytes, `Res.err` yields the error — every
    contract-respecting driver behaviour corresponds to some oracle;
  * a sink `write(&buffer[pos..bytes_read])` call either fails or writes
    `bytes_written <= bytes_read - pos` bytes; an oracle entry `Res.ok k`
    writes `min k (bytes_read - pos)` bytes.
Executions that would need more oracle entries than supplied (the real
loops can spin forever on a sink that keeps accepting 0 bytes, or read
past any bound) are modelled as `none`; a terminating run is a `some`.
-/

namespace MBF

/-- Device states of the driver's `MBFState` enumeration. -/
inductive MBFState
  | Unconfigured
  | InvalidParameters
  | Ready
  | Running
  deriving DecidableEq, Repr

/-- Oracle entry for one driver-read or sink-write call. -/
inductive Res
  | ok (k : Nat)
  | err
  deriving DecidableEq, Repr

/-- Driver/sink interaction events of one run of the start subcommand.
`readOk n` is a successful `filter.read` returning `n` bytes, `writeOk n`
a successful sink write of `n` bytes; `readFail`/`writeFail` are the
corresponding failing calls; `start`/`stop` are `filter.start()` and
`filter.stop()`. -/
inductive Ev
  | start
  | readOk (n : Nat)
  | readFail
  | writeOk (n : Nat)
  | writeFail
  | stop
  deriving DecidableEq, Repr

/-- Errors the start subcommand can propagate. -/
inductive RunErr
  | wrongState
  | readErr
  | writeErr
  deriving DecidableEq, Repr

/-- The fixed read buffer of the acquisition loop:
`let mut buffer : [u8; 12*2048] = [0; 12*2048];` (main.rs line 140). -/
def bufSize : Nat := 12 * 2048

/-- Inner write loop of the acquisition loop (main.rs lines 144-148):

    let mut pos = 0;
    while pos < (&buffer[..bytes_read]).len() {
        let bytes_written = ofile.write(&buffer[pos..bytes_read])?;
        pos += bytes_written;
    };

`b` is `bytes_read`. Returns the list of successful write lengths, the
unconsumed write oracle, and `true` when the chunk was fully flushed
(`false` when a write failed and the `?` propagated the error). -/
def writeChunk (b : Nat) : Nat → List Res → Option (List Nat × List Res × Bool)
  | pos, [] => if pos < b then none else some ([], [], true)
  | pos, Res.err :: ws' =>
      if pos < b then some ([], ws', false) else some ([], Res.err :: ws', true)
  | pos, Res.ok k :: ws' =>
      if pos < b then
        match writeChunk b (pos + min k (b - pos)) ws' with
        | none => none
        | some (lens, rest, fl) => some (min k (b - pos) :: lens, rest, fl)
      else some ([], Res.ok k :: ws', true)

/-- Outer acquisition loop of the start subcommand (main.rs lines 141-150):

    while fc < requested_pc {
        let bytes_read = filter.read(&mut buffer)?;
        ... inner write loop ...
        fc += bytes_read as u64;
    }

`target` is `requested_pc`, `fc` the running byte total. Returns the
event trace, the final `fc`, and `none` on normal exit or `some e` when
a read or write error was propagated by `?`. -/
def acqLoop (target : Nat) : Nat → List Res → List Res →
    Option (List Ev × Nat × Option RunErr)
  | fc, [], _ => if fc < target then none else some ([], fc, none)
  | fc, Res.err :: _, _ =>
      if fc < target then some ([Ev.readFail], fc, some RunErr.readErr)
      else some ([], fc, none)
  | fc, Res.ok k :: rs', ws =>
      if fc < target then
        match writeChunk (min k bufSize) 0 ws with
        | none => none
        | some (lens, _, false) =>
            some (Ev.readOk (min k bufSize) :: lens.map Ev.writeOk ++ [Ev.writeFail],
              fc, some RunErr.writeErr)
        | some (lens, ws', true) =>
            match acqLoop target (fc + min k bufSize) rs' ws' with
            | none => none
            | some (evs, total, res) =>
                some (Ev.readOk (min k bufSize) :: lens.map Ev.writeOk ++ evs,
                  total, res)
      else some ([], fc, none)

/-- The start subcommand's state dispatch (main.rs lines 137-154):

    match filter.state() {
        MBFState::Ready => {
            filter.start();
            ... acquisition loop ...
            filter.stop();
        },
        _ => Err(MBError::WrongState)?,
    }

`filter.stop()` (line 151) runs only when the loop exits normally; an
error propagated by `?` from inside the loop skips it. -/
def startCmd (st : MBFState) (target : Nat) (rs ws : List Res) :
    Option (List Ev × Nat × Option RunErr) :=
  match st with
  | MBFState.Ready =>
    match acqLoop target 0 rs ws with
    | none => none
    | some (evs, total, none) => some (Ev.start :: evs ++ [Ev.stop], total, none)
    | some (evs, total, some e) => some (Ev.start :: evs, total, some e)
  | _ => some ([], 0, some RunErr.wrongState)

/-- Sum of the successful read lengths in a trace. -/
def readSum : List Ev → Nat
  | [] => 0
  | Ev.readOk n :: l => n + readSum l
  | _ :: l => readSum l

/-- Sum of the successful sink-write lengths in a trace. -/
def writeSum : List Ev → Nat
  | [] => 0
  | Ev.writeOk n :: l => n + writeSum l
  | _ :: l => writeSum l

/-- Rejection reasons of the remote configuration endpoint's design
vocabulary. -/
inductive Reason
  | invalidParameters
  | deviceBusy
  deriving DecidableEq, Repr

/-- Possible outcomes of one `ws_handler` invocation. The code only ever
produces `unitReturn` (the function body falls through returning unit,
no reply value is built) or `panicked`; `accepted` and `rejected` are the
spec's vocabulary, present so their absence is expressible. -/
inductive Reply
  | accepted
  | rejected (r : Reason)
  | unitReturn
  | panicked (msg : String)
  deriving DecidableEq, Repr

/-- Device/guard interaction events of `ws_handler` and of the configure
subcommand. -/
inductive HEv
  | tryAcquireOk
  | tryAcquireBusy
  | stateQuery (s : MBFState)
  | configure
  | start
  | stop
  deriving DecidableEq, Repr

/-- The websocket configuration handler (main.rs lines 194-209):

    let config = match config.validate() {
        Ok(config) => config,
        Err(e) => panic!(..AAAAH..),
    };
    let mut locked_filter = filter.try_lock();
    if let Ok(ref mut unlocked_filter) = locked_filter {
        match unlocked_filter.state() {
            MBFState::Ready | MBFState::InvalidParameters => {
                unlocked_filter.configure(config);
            },
            _ => panic!(..bbb..),
        }
    }

`valid` is whether `config.validate()` succeeds, `lockFree` whether
`filter.try_lock()` obtains the mutex, `st` the state the driver reports.
Returns the interaction trace and the outcome. -/
def ws_handler (valid : Bool) (lockFree : Bool) (st : MBFState) :
    List HEv × Reply :=
  if valid then
    if lockFree then
      match st with
      | MBFState.Ready =>
          ([HEv.tryAcquireOk, HEv.stateQuery MBFState.Ready, HEv.configure],
            Reply.unitReturn)
      | MBFState.InvalidParameters =>
          ([HEv.tryAcquireOk, HEv.stateQuery MBFState.InvalidParameters,
            HEv.configure], Reply.unitReturn)
      | s => ([HEv.tryAcquireOk, HEv.stateQuery s], Reply.panicked "bbb")
    else ([HEv.tryAcquireBusy], Reply.unitReturn)
  else ([], Reply.panicked "AAAAH")

/-- The configure subcommand (main.rs lines 116-126): build the filter
handle (`MBFilter::new()?`), parse the five parameters
(`MBConfig::new_from_str(..)?`), then `filter.configure(config)` —
without querying `state()` and without issuing `stop`. `filterOk` and
`parseOk` are the outcomes of the two fallible steps; returns the
interaction trace and whether the subcommand succeeded. -/
def configureCmd (filterOk parseOk : Bool) : List HEv × Bool :=
  if filterOk then
    if parseOk then ([HEv.configure], true) else ([], false)
  else ([], false)

/-- Model of `Mutex::try_lock` on the shared filter handle (main.rs
lines 159, 199): atomic and non-blocking. From state `held` it returns
(success, new state): it succeeds exactly when the mutex is free, and
never waits. -/
def tryLock (held : Bool) : Bool × Bool :=
  if held then (false, true) else (true, true)

/-- One scheduling round of `n` concurrent `try_lock` callers, serialized
in arrival order with no release in between (each atomic `try_lock` takes
effect in some order). Returns each caller's success/failure. -/
def raceRound : Nat → Bool → List Bool
  | 0, _ => []
  | n + 1, held => (tryLock held).1 :: raceRound n (tryLock held).2

theorem readSum_append (a b : List Ev) :
    readSum (a ++ b) = readSum a + readSum b := by
  induction a with
  | nil => simp [readSum]
  | cons e l ih => cases e <;> simp [readSum, ih, Nat.add_assoc]

theorem writeSum_append (a b : List Ev) :
    writeSum (a ++ b) = writeSum a + writeSum b := by
  induction a with
  | nil => simp [writeSum]
  | cons e l ih => cases e <;> simp [writeSum, ih, Nat.add_assoc]

theorem readSum_map_writeOk (l : List Nat) :
    readSum (l.map Ev.writeOk) = 0 := by
  induction l with
  | nil => simp [readSum]
  | cons n l ih => simp [readSum, ih]

theorem writeSum_map_writeOk (l : List Nat) :
    writeSum (l.map Ev.writeOk) = l.sum := by
  induction l with
  | nil => simp [writeSum]
  | cons n l ih => simp [writeSum, ih]

theorem readOk_not_mem_map_writeOk (n : Nat) (l : List Nat) :
    Ev.readOk n ∉ l.map Ev.writeOk := by
  induction l with
  | nil => simp
  | cons m l ih => simp [ih]

theorem stop_not_mem_map_writeOk (l : List Nat) :
    Ev.stop ∉ l.map Ev.writeOk := by
  induction l with
  | nil => simp
  | cons m l ih => simp [ih]

/-- A fully flushed chunk wrote exactly the unwritten remainder: the inner
write loop exits only once the cursor reaches `bytes_read`. -/
theorem writeChunk_flushed_sum (b : Nat) :
    ∀ ws pos lens rest, pos ≤ b →
      writeChunk b pos ws = some (lens, rest, true) →
      pos + lens.sum = b := by
  intro ws
  induction ws with
  | nil =>
    intro pos lens rest hle h
    by_cases hpb : pos < b
    · simp [writeChunk, hpb] at h
    · simp [writeChunk, hpb] at h
      obtain ⟨h1, -, -⟩ := h
      subst h1
      simp
      omega
  | cons w ws' ih =>
    intro pos lens rest hle h
    cases w with
    | err =>
      by_cases hpb : pos < b
      · simp [writeChunk, hpb] at h
      · simp [writeChunk, hpb] at h
        obtain ⟨h1, -, -⟩ := h
        subst h1
        simp
        omega
    | ok k =>
      by_cases hpb : pos < b
      · simp only [writeChunk, if_pos hpb] at h
        cases hrec : writeChunk b (pos + min k (b - pos)) ws' with
        | none => rw [hrec] at h; exact absurd h (by simp)
        | some out =>
          obtain ⟨lens', rest', fl'⟩ := out
          rw [hrec] at h
          simp at h
          obtain ⟨h1, -, h3⟩ := h
          subst h1
          subst h3
          have hle' : pos + min k (b - pos) ≤ b := by
            have := Nat.min_le_right k (b - pos)
            omega
          have := ih (pos + min k (b - pos)) lens' rest' hle' hrec
          simp
          omega
      · simp [writeChunk, hpb] at h
        obtain ⟨h1, -, -⟩ := h
        subst h1
        simp
        omega

/-- A chunk ended by a sink-write error wrote strictly less than the
chunk's remainder. -/
theorem writeChunk_failed_sum (b : Nat) :
    ∀ ws pos lens rest,
      writeChunk b pos ws = some (lens, rest, false) →
      pos + lens.sum < b := by
  intro ws
  induction ws with
  | nil =>
    intro pos lens rest h
    by_cases hpb : pos < b <;> simp [writeChunk, hpb] at h
  | cons w ws' ih =>
    intro pos lens rest h
    cases w with
    | err =>
      by_cases hpb : pos < b
      · simp [writeChunk, hpb] at h
        obtain ⟨h1, -, -⟩ := h
        subst h1
        simpa using hpb
      · simp [writeChunk, hpb] at h
    | ok k =>
      by_cases hpb : pos < b
      · simp only [writeChunk, if_pos hpb] at h
        cases hrec : writeChunk b (pos + min k (b - pos)) ws' with
        | none => rw [hrec] at h; exact absurd h (by simp)
        | some out =>
          obtain ⟨lens', rest', fl'⟩ := out
          rw [hrec] at h
          simp at h
          obtain ⟨h1, -, h3⟩ := h
          subst h1
          subst h3
          have := ih (pos + min k (b - pos)) lens' rest' hrec
          simp
          omega
      · simp [writeChunk, hpb] at h

/-- Invariant of the outer acquisition loop: the loop itself never issues
`start` or `stop`; every successful read is at most one buffer; on every
exit not caused by a sink-write error the bytes written equal the bytes
read and the final total is the entry total plus the bytes read; a
sink-write error leaves strictly fewer bytes written than read; a normal
exit reaches the target, overshoots it by less than one buffer, and is an
immediate exit when the entry total already meets the target. -/
theorem acqLoop_spec (target : Nat) :
    ∀ rs ws fc evs total res,
      acqLoop target fc rs ws = some (evs, total, res) →
      (Ev.stop ∉ evs ∧ Ev.start ∉ evs) ∧
      (∀ n, Ev.readOk n ∈ evs → n ≤ bufSize) ∧
      (res ≠ some RunErr.writeErr →
        writeSum evs = readSum evs ∧ total = fc + readSum evs) ∧
      (res = some RunErr.writeErr → writeSum evs < readSum evs) ∧
      (res = none → target ≤ total ∧ (fc < target → total < target + bufSize) ∧
        (target ≤ fc → total = fc)) := by
  intro rs
  induction rs with
  | nil =>
    intro ws fc evs total res h
    by_cases hft : fc < target
    · simp [acqLoop, hft] at h
    · simp [acqLoop, hft] at h
      obtain ⟨h1, h2, h3⟩ := h
      subst h1; subst h2; subst h3
      refine ⟨⟨by simp, by simp⟩, by simp, ?_, by simp, ?_⟩
      · intro _; simp [readSum, writeSum]
      · intro _; exact ⟨by omega, by omega, fun _ => rfl⟩
  | cons w rs' ih =>
    intro ws fc evs total res h
    cases w with
    | err =>
      by_cases hft : fc < target
      · simp [acqLoop, hft] at h
        obtain ⟨h1, h2, h3⟩ := h
        subst h1; subst h2; subst h3
        refine ⟨⟨by simp, by simp⟩, by simp, ?_, by simp, by simp⟩
        intro _; simp [readSum, writeSum]
      · simp [acqLoop, hft] at h
        obtain ⟨h1, h2, h3⟩ := h
        subst h1; subst h2; subst h3
        refine ⟨⟨by simp, by simp⟩, by simp, ?_, by simp, ?_⟩
        · intro _; simp [readSum, writeSum]
        · intro _; exact ⟨by omega, by omega, fun _ => rfl⟩
    | ok k =>
      have hnb : min k bufSize ≤ bufSize := Nat.min_le_right k bufSize
      by_cases hft : fc < target
      · simp only [acqLoop, if_pos hft] at h
        cases hwc : writeChunk (min k bufSize) 0 ws with
        | none => rw [hwc] at h; exact absurd h (by simp)
        | some out =>
          obtain ⟨lens, ws', fl⟩ := out
          rw [hwc] at h
          cases fl with
          | false =>
            simp at h
            obtain ⟨h1, h2, h3⟩ := h
            subst h1; subst h2; subst h3
            have hsum := writeChunk_failed_sum (min k bufSize) ws 0 lens ws' hwc
            refine ⟨⟨by simp, by simp⟩, ?_, ?_, ?_, by simp⟩
            · intro m hm
              simp at hm
              omega
            · intro hne; exact absurd rfl hne
            · intro _
              simp [readSum, writeSum, readSum_append, writeSum_append,
                readSum_map_writeOk, writeSum_map_writeOk]
              omega
          | true =>
            dsimp only at h
            cases hrec : acqLoop target (fc + min k bufSize) rs' ws' with
            | none => rw [hrec] at h; exact absurd h (by simp)
            | some out2 =>
              obtain ⟨evs', total', res'⟩ := out2
              rw [hrec] at h
              simp at h
              obtain ⟨h1, h2, h3⟩ := h
              subst h1; subst h2; subst h3
              have hsum := writeChunk_flushed_sum (min k bufSize) ws 0 lens ws'
                (Nat.zero_le _) hwc
              obtain ⟨⟨ihstop, ihstart⟩, ihreads, ihacct, ihwr, ihnone⟩ :=
                ih ws' (fc + min k bufSize) evs' _ _ hrec
              refine ⟨⟨by simp [ihstop], by simp [ihstart]⟩, ?_, ?_, ?_, ?_⟩
              · intro m hm
                simp at hm
                rcases hm with hm | hm
                · omega
                · exact ihreads m hm
              · intro hne
                obtain ⟨e1, e2⟩ := ihacct hne
                simp [readSum, writeSum, readSum_append, writeSum_append,
                  readSum_map_writeOk, writeSum_map_writeOk]
                omega
              · intro he
                have := ihwr he
                simp [readSum, writeSum, readSum_append, writeSum_append,
                  readSum_map_writeOk, writeSum_map_writeOk]
                omega
              · intro he
                obtain ⟨ih1, ih2, ih3⟩ := ihnone he
                refine ⟨ih1, ?_, ?_⟩
                · intro _
                  by_cases hc : fc + min k bufSize < target
                  · have := ih2 hc; omega
                  · have := ih3 (by omega); omega
                · intro hge; omega
      · simp [acqLoop, hft] at h
        obtain ⟨h1, h2, h3⟩ := h
        subst h1; subst h2; subst h3
        refine ⟨⟨by simp, by simp⟩, by simp, ?_, by simp, ?_⟩
        · intro _; simp [readSum, writeSum]
        · intro _; exact ⟨by omega, by omega, fun _ => rfl⟩

/-- C1 counterexample: with the device Ready, target 1 and a failing
first read, the start subcommand issues `start`, propagates the read
error, and never issues `stop` — refuting the claim that `stop` is issued
on every exit path. -/
theorem C1_counterexample :
    startCmd MBFState.Ready 1 [Res.err] [] =
      some ([Ev.start, Ev.readFail], 0, some RunErr.readErr) ∧
    Ev.stop ∉ [Ev.start, Ev.readFail] := by
  decide

/-- C1 (amended): in the start subcommand's Ready branch, `start` is
always the first driver event, but `stop` is issued only when the loop
completes normally; on a read error or a sink-write error the `?`
operator propagates the error past `filter.stop()`, so `stop` is absent
from those exit paths and the device is left Running. -/
theorem C1_stop_only_on_normal_exit :
    ∀ target rs ws evs total res,
      startCmd MBFState.Ready target rs ws = some (evs, total, res) →
      evs.head? = some Ev.start ∧
      (res = none → Ev.stop ∈ evs) ∧
      (res ≠ none → Ev.stop ∉ evs) := by
  intro target rs ws evs total res h
  simp only [startCmd] at h
  cases hal : acqLoop target 0 rs ws with
  | none => rw [hal] at h; exact absurd h (by simp)
  | some out =>
    obtain ⟨evs0, total0, res0⟩ := out
    rw [hal] at h
    obtain ⟨⟨hstop, hstart⟩, -, -, -, -⟩ :=
      acqLoop_spec target rs ws 0 evs0 total0 res0 hal
    cases res0 with
    | none =>
      simp at h
      obtain ⟨h1, h2, h3⟩ := h
      subst h1; subst h2; subst h3
      exact ⟨by simp, fun _ => by simp, fun hne => absurd rfl hne⟩
    | some e =>
      simp at h
      obtain ⟨h1, h2, h3⟩ := h
      subst h1; subst h2; subst h3
      refine ⟨by simp, ?_, ?_⟩
      · intro hc; exact absurd hc (by simp)
      · intro _; simp [hstop]

/-- C1 witness: the amended theorem instantiated on a concrete normal
run (target 0: the loop exits at once and `stop` follows `start`). -/
theorem C1_witness :
    startCmd MBFState.Ready 0 [] [] = some ([Ev.start, Ev.stop], 0, none) ∧
    (([Ev.start, Ev.stop] : List Ev).head? = some Ev.start ∧
      ((none : Option RunErr) = none → Ev.stop ∈ [Ev.start, Ev.stop]) ∧
      ((none : Option RunErr) ≠ none → Ev.stop ∉ [Ev.start, Ev.stop])) :=
  ⟨by decide,
    C1_stop_only_on_normal_exit 0 [] [] [Ev.start, Ev.stop] 0 none (by decide)⟩

/-- C2 counterexample: a valid request against a Running device with the
lock free panics with message bbb; it issues neither `stop` nor
`configure` and the request is not accepted — refuting the claim that a
Running device gets `stop` then `configure` and that all four states are
accepted. -/
theorem C2_counterexample :
    (ws_handler true true MBFState.Running).2 = Reply.panicked "bbb" ∧
    (ws_handler true true MBFState.Running).2 ≠ Reply.accepted ∧
    HEv.stop ∉ (ws_handler true true MBFState.Running).1 ∧
    HEv.configure ∉ (ws_handler true true MBFState.Running).1 := by
  decide

/-- C2 (amended): with a valid configuration and the lock acquired, the
handler queries the state and issues `configure` directly when it is
Ready or InvalidParameters; when it is Running or Unconfigured it panics
without configuring; `stop` is never issued on any path. -/
theorem C2_remote_configure_behaviour :
    ws_handler true true MBFState.Ready =
      ([HEv.tryAcquireOk, HEv.stateQuery MBFState.Ready, HEv.configure],
        Reply.unitReturn) ∧
    ws_handler true true MBFState.InvalidParameters =
      ([HEv.tryAcquireOk, HEv.stateQuery MBFState.InvalidParameters,
        HEv.configure], Reply.unitReturn) ∧
    ws_handler true true MBFState.Running =
      ([HEv.tryAcquireOk, HEv.stateQuery MBFState.Running],
        Reply.panicked "bbb") ∧
    ws_handler true true MBFState.Unconfigured =
      ([HEv.tryAcquireOk, HEv.stateQuery MBFState.Unconfigured],
        Reply.panicked "bbb") ∧
    (∀ v l s, HEv.stop ∉ (ws_handler v l s).1) := by
  refine ⟨rfl, rfl, rfl, rfl, ?_⟩
  intro v l s
  cases v <;> cases l <;> cases s <;> decide

/-- C3 counterexample: a request failing validation makes the handler
panic (aborting the process on caller-supplied input) instead of
returning Rejected(InvalidParameters). -/
theorem C3_counterexample :
    ws_handler false true MBFState.Ready = ([], Reply.panicked "AAAAH") ∧
    Reply.panicked "AAAAH" ≠ Reply.rejected Reason.invalidParameters := by
  decide

/-- C3 (amended): on validation failure the handler panics with message
AAAAH before any device interaction — the trace is empty, so `try_lock`
is indeed never invoked and the device is untouched, but the outcome is a
process abort, not a Rejected(InvalidParameters) reply. -/
theorem C3_invalid_config_panics :
    ∀ l st, ws_handler false l st = ([], Reply.panicked "AAAAH") := by
  intro l st
  rfl

/-- C4 counterexample: with a valid configuration but the mutex held by
another caller, the handler silently returns unit; no
Rejected(DeviceBusy) reply is produced. -/
theorem C4_counterexample :
    ws_handler true false MBFState.Ready =
      ([HEv.tryAcquireBusy], Reply.unitReturn) ∧
    Reply.unitReturn ≠ Reply.rejected Reason.deviceBusy := by
  decide

/-- C4 (amended): when `try_lock` fails the handler returns immediately
(non-blocking) with no reply at all — not Rejected(DeviceBusy) — and
without touching the device: the only event is the failed acquisition,
so the configuration and state are left unchanged. -/
theorem C4_busy_silent_return :
    (∀ st, ws_handler true false st =
      ([HEv.tryAcquireBusy], Reply.unitReturn)) ∧
    HEv.configure ∉ [HEv.tryAcquireBusy] ∧
    HEv.stop ∉ [HEv.tryAcquireBusy] :=
  ⟨fun _ => rfl, by decide, by decide⟩

/-- C5 counterexample: target 10, one read returning 10 bytes, a sink
that accepts 4 bytes and then fails: the terminating run has write sum 4
but read sum 10 — refuting the claim that the two sums agree on every
terminating run. -/
theorem C5_counterexample :
    startCmd MBFState.Ready 10 [Res.ok 10] [Res.ok 4, Res.err] =
      some ([Ev.start, Ev.readOk 10, Ev.writeOk 4, Ev.writeFail], 0,
        some RunErr.writeErr) ∧
    writeSum [Ev.start, Ev.readOk 10, Ev.writeOk 4, Ev.writeFail] = 4 ∧
    readSum [Ev.start, Ev.readOk 10, Ev.writeOk 4, Ev.writeFail] = 10 := by
  decide

/-- C5 (amended): on every terminating run of the start subcommand from
Ready that is not ended by a sink-write error, the sum of sink-write
lengths equals the sum of read return values and equals the final byte
total; on success the total moreover reaches the target (overshoot
allowed, undershoot never); a run ended by a sink-write error has
strictly fewer bytes written than read (the failing chunk's remainder is
lost). Partial sink writes are continued until the chunk is flushed, which
is what makes the sums agree on all other paths. -/
theorem C5_byte_accounting :
    ∀ target rs ws evs total res,
      startCmd MBFState.Ready target rs ws = some (evs, total, res) →
      (res ≠ some RunErr.writeErr →
        writeSum evs = readSum evs ∧ total = readSum evs) ∧
      (res = none → target ≤ total) ∧
      (res = some RunErr.writeErr → writeSum evs < readSum evs) := by
  intro target rs ws evs total res h
  simp only [startCmd] at h
  cases hal : acqLoop target 0 rs ws with
  | none => rw [hal] at h; exact absurd h (by simp)
  | some out =>
    obtain ⟨evs0, total0, res0⟩ := out
    rw [hal] at h
    obtain ⟨-, -, ihacct, ihwr, ihnone⟩ :=
      acqLoop_spec target rs ws 0 evs0 total0 res0 hal
    cases res0 with
    | none =>
      simp at h
      obtain ⟨h1, h2, h3⟩ := h
      subst h1; subst h2; subst h3
      obtain ⟨e1, e2⟩ := ihacct (by simp)
      refine ⟨?_, ?_, ?_⟩
      · intro _
        constructor
        · simp [readSum, writeSum, readSum_append, writeSum_append, e1]
        · simp [readSum, writeSum, readSum_append, writeSum_append]
          omega
      · intro _
        exact (ihnone rfl).1
      · intro hc; exact absurd hc (by simp)
    | some e =>
      simp at h
      obtain ⟨h1, h2, h3⟩ := h
      subst h1; subst h2; subst h3
      refine ⟨?_, ?_, ?_⟩
      · intro hne
        obtain ⟨e1, e2⟩ := ihacct hne
        constructor
        · simp [readSum, writeSum, e1]
        · simp [readSum, writeSum]
          omega
      · intro hc; exact absurd hc (by simp)
      · intro hc
        have := ihwr hc
        simp [readSum, writeSum]
        omega

/-- C5 witness: the amended theorem instantiated on a run with a partial
sink write (3 bytes, then the remaining 2) that reaches its target of 5. -/
theorem C5_witness :
    startCmd MBFState.Ready 5 [Res.ok 5] [Res.ok 3, Res.ok 2] =
      some ([Ev.start, Ev.readOk 5, Ev.writeOk 3, Ev.writeOk 2, Ev.stop],
        5, none) ∧
    (((none : Option RunErr) ≠ some RunErr.writeErr →
      writeSum [Ev.start, Ev.readOk 5, Ev.writeOk 3, Ev.writeOk 2, Ev.stop] =
        readSum [Ev.start, Ev.readOk 5, Ev.writeOk 3, Ev.writeOk 2, Ev.stop] ∧
      5 = readSum [Ev.start, Ev.readOk 5, Ev.writeOk 3, Ev.writeOk 2, Ev.stop]) ∧
    ((none : Option RunErr) = none → 5 ≤ 5) ∧
    ((none : Option RunErr) = some RunErr.writeErr →
      writeSum [Ev.start, Ev.readOk 5, Ev.writeOk 3, Ev.writeOk 2, Ev.stop] <
        readSum [Ev.start, Ev.readOk 5, Ev.writeOk 3, Ev.writeOk 2, Ev.stop])) :=
  ⟨by decide,
    C5_byte_accounting 5 [Res.ok 5] [Res.ok 3, Res.ok 2]
      [Ev.start, Ev.readOk 5, Ev.writeOk 3, Ev.writeOk 2, Ev.stop] 5 none
      (by decide)⟩

/-- C6: when the start subcommand finds the device in any state other
than Ready it fails with WrongState and its driver-interaction trace is
empty — `start`, `read` and `stop` are never invoked. -/
theorem C6_wrongstate_without_device_interaction :
    ∀ st target rs ws, st ≠ MBFState.Ready →
      startCmd st target rs ws = some ([], 0, some RunErr.wrongState) := by
  intro st target rs ws hne
  cases st with
  | Ready => exact absurd rfl hne
  | Unconfigured => rfl
  | InvalidParameters => rfl
  | Running => rfl

/-- C6 witness: the theorem instantiated with the Unconfigured state. -/
theorem C6_witness :
    MBFState.Unconfigured ≠ MBFState.Ready ∧
    startCmd MBFState.Unconfigured 5 [Res.ok 3] [Res.ok 3] =
      some ([], 0, some RunErr.wrongState) :=
  ⟨by decide,
    C6_wrongstate_without_device_interaction MBFState.Unconfigured 5
      [Res.ok 3] [Res.ok 3] (by decide)⟩

/-- C7 counterexample: the remote handler, observing a Running device,
issues neither `stop` nor `configure` — it panics — refuting the claim
that the controller issues `stop` and then `configure` when it observes
Running. -/
theorem C7_counterexample :
    (ws_handler true true MBFState.Running).1 =
      [HEv.tryAcquireOk, HEv.stateQuery MBFState.Running] ∧
    HEv.stateQuery MBFState.Running ∈ (ws_handler true true MBFState.Running).1 ∧
    HEv.stop ∉ (ws_handler true true MBFState.Running).1 ∧
    HEv.configure ∉ (ws_handler true true MBFState.Running).1 := by
  decide

/-- C7 (amended): no controller path ever issues `stop` before
`configure`. The local configure subcommand issues `configure`
unconditionally without querying the state and without any `stop`; the
remote handler never issues `stop` either, and against a device it
observed Running it never issues `configure` (it panics instead). -/
theorem C7_no_stop_before_configure :
    (∀ fOk pOk, HEv.stop ∉ (configureCmd fOk pOk).1 ∧
      ∀ s, HEv.stateQuery s ∉ (configureCmd fOk pOk).1) ∧
    configureCmd true true = ([HEv.configure], true) ∧
    (∀ v l s, HEv.stop ∉ (ws_handler v l s).1) ∧
    (∀ v l, HEv.configure ∉ (ws_handler v l MBFState.Running).1) := by
  refine ⟨?_, rfl, ?_, ?_⟩
  · intro fOk pOk
    cases fOk <;> cases pOk <;> exact ⟨by decide, by intro s; cases s <;> decide⟩
  · intro v l s
    cases v <;> cases l <;> cases s <;> decide
  · intro v l
    cases v <;> cases l <;> decide

/-- C8: the exclusive-access guard. `try_lock` is modelled as the atomic
non-blocking test-and-set it is: it succeeds exactly when the mutex is
free and always leaves it held. In one scheduling round of `n` concurrent
callers serialized from the free state, exactly one succeeds (when any
caller exists) and all others observe Busy; from a held state every
caller observes Busy, so a second live token can never be granted while
one is held. -/
theorem C8_exactly_one_acquire :
    (∀ h, tryLock h = (!h, true)) ∧
    (∀ n, raceRound n true = List.replicate n false) ∧
    (∀ n, (raceRound n false).count true = min n 1 ∧
      (raceRound n false).count false = n - min n 1) := by
  have htl : ∀ h, tryLock h = (!h, true) := by
    intro h; cases h <;> rfl
  have hrep : ∀ n, raceRound n true = List.replicate n false := by
    intro n
    induction n with
    | zero => rfl
    | succ n ih => simp [raceRound, tryLock, ih, List.replicate]
  refine ⟨htl, hrep, ?_⟩
  intro n
  cases n with
  | zero => simp [raceRound]
  | succ n =>
    have : raceRound (n + 1) false = true :: List.replicate n false := by
      simp [raceRound, tryLock, hrep]
    rw [this]
    simp [List.count_cons, List.count_replicate]

/-- C9: every read of the acquisition loop is bounded by the fixed
12*2048-byte buffer, and on a successful run the total satisfies
target ≤ total ≤ target + (12*2048 - 1): the overshoot is strictly less
than one buffer. -/
theorem C9_overshoot_less_than_buffer :
    ∀ target rs ws evs total,
      startCmd MBFState.Ready target rs ws = some (evs, total, none) →
      (∀ n, Ev.readOk n ∈ evs → n ≤ 12 * 2048) ∧
      target ≤ total ∧ total ≤ target + (12 * 2048 - 1) := by
  intro target rs ws evs total h
  simp only [startCmd] at h
  cases hal : acqLoop target 0 rs ws with
  | none => rw [hal] at h; exact absurd h (by simp)
  | some out =>
    obtain ⟨evs0, total0, res0⟩ := out
    rw [hal] at h
    obtain ⟨-, ihreads, -, -, ihnone⟩ :=
      acqLoop_spec target rs ws 0 evs0 total0 res0 hal
    cases res0 with
    | none =>
      simp at h
      obtain ⟨h1, h2⟩ := h
      subst h1; subst h2
      obtain ⟨ih1, ih2, ih3⟩ := ihnone rfl
      have hb : bufSize = 12 * 2048 := rfl
      refine ⟨?_, ih1, ?_⟩
      · intro n hn
        simp at hn
        have := ihreads n hn
        omega
      · by_cases hz : 0 < target
        · have := ih2 hz; omega
        · have := ih3 (by omega); omega
    | some e =>
      simp at h

/-- C9 witness: the theorem instantiated on a run with two 2-byte reads
against a target of 3, overshooting to 4. -/
theorem C9_witness :
    startCmd MBFState.Ready 3 [Res.ok 2, Res.ok 2] [Res.ok 2, Res.ok 2] =
      some ([Ev.start, Ev.readOk 2, Ev.writeOk 2, Ev.readOk 2, Ev.writeOk 2,
        Ev.stop], 4, none) ∧
    ((∀ n, Ev.readOk n ∈ [Ev.start, Ev.readOk 2, Ev.writeOk 2, Ev.readOk 2,
        Ev.writeOk 2, Ev.stop] → n ≤ 12 * 2048) ∧
      3 ≤ 4 ∧ 4 ≤ 3 + (12 * 2048 - 1)) :=
  ⟨by decide,
    C9_overshoot_less_than_buffer 3 [Res.ok 2, Res.ok 2] [Res.ok 2, Res.ok 2]
      [Ev.start, Ev.readOk 2, Ev.writeOk 2, Ev.readOk 2, Ev.writeOk 2, Ev.stop]
      4 (by decide)⟩

/-- C10: a requested target of 0 with the device Ready is accepted: the
loop body never runs (zero reads, zero sink writes), yet `start` and then
immediately `stop` are still issued and the reported total is 0. -/
theorem C10_zero_target_start_stop :
    ∀ rs ws, startCmd MBFState.Ready 0 rs ws =
      some ([Ev.start, Ev.stop], 0, none) := by
  intro rs ws
  cases rs with
  | nil => rfl
  | cons w rs' => cases w <;> rfl

end MBF
